import Mathlib

/-
  Shallow embedding of the kvstore repository:
  an in-memory key-value store with optional per-key TTL expiration
  (internal/storage/memory.go, TTL-aware version) and the gRPC request
  handler (internal/server). Go maps are modelled as association lists
  whose update operation replaces any previous binding of the key; the
  wall clock is passed explicitly as a Unix-seconds integer.
-/

namespace KVStore

/-- Lookup in an association list, mirroring Go map read `m[k]`. -/
def lookupA {α : Type} (k : String) : List (String × α) → Option α
  | [] => none
  | (k', v) :: rest => if k' = k then some v else lookupA k rest

/-- Removal of a key, mirroring Go `delete(m, k)`. -/
def eraseA {α : Type} (k : String) : List (String × α) → List (String × α)
  | [] => []
  | (k', v) :: rest => if k' = k then eraseA k rest else (k', v) :: eraseA k rest

/-- Map assignment `m[k] = v`: any previous binding of `k` is replaced. -/
def insertA {α : Type} (k : String) (v : α) (m : List (String × α)) :
    List (String × α) :=
  (k, v) :: eraseA k m

/-- The store state: `data` is the `map[string]string` of values and
`ttl` the `map[string]int64` of absolute expiration timestamps
(Unix seconds). -/
structure MemoryStore where
  data : List (String × String)
  ttl : List (String × Int)
deriving DecidableEq

/-- NewMemoryStore: both maps start empty. -/
def NewMemoryStore : MemoryStore := ⟨[], []⟩

/-- isExpired: a key is expired when it has an expiration timestamp and
`now >= expiration` (boundary inclusive), as in the Go source. -/
def MemoryStore.isExpired (m : MemoryStore) (now : Int) (key : String) : Bool :=
  match lookupA key m.ttl with
  | none => false
  | some expiration => decide (now ≥ expiration)

/-- The private `delete` helper: removes the key from both maps. -/
def MemoryStore.delete (m : MemoryStore) (key : String) : MemoryStore :=
  ⟨eraseA key m.data, eraseA key m.ttl⟩

/-- Get: on an expired key, lazily evicts the entry and reports not-found;
otherwise reads the data map (Go returns the zero value "" when absent). -/
def MemoryStore.Get (m : MemoryStore) (now : Int) (key : String) :
    (String × Bool) × MemoryStore :=
  if m.isExpired now key then
    (("", false), m.delete key)
  else
    match lookupA key m.data with
    | some v => ((v, true), m)
    | none => (("", false), m)

/-- Set: rejects the empty key; otherwise writes the value, then either
records `now + ttlSeconds` as the expiration (when a strictly positive TTL
is supplied) or deletes any previous expiration. -/
def MemoryStore.Set (m : MemoryStore) (now : Int) (key value : String)
    (ttlSeconds : Option Int) : Except String Unit × MemoryStore :=
  if key = "" then
    (Except.error "key cannot be empty", m)
  else
    let m1 : MemoryStore := ⟨insertA key value m.data, m.ttl⟩
    match ttlSeconds with
    | some t =>
      if t > 0 then
        (Except.ok (), ⟨m1.data, insertA key (now + t) m1.ttl⟩)
      else
        (Except.ok (), ⟨m1.data, eraseA key m1.ttl⟩)
    | none => (Except.ok (), ⟨m1.data, eraseA key m1.ttl⟩)

/-- Delete: rejects the empty key; otherwise reports whether a physical
entry was present and removes the key from both maps unconditionally. -/
def MemoryStore.Delete (m : MemoryStore) (key : String) :
    Except String Bool × MemoryStore :=
  if key = "" then
    (Except.error "key cannot be empty", m)
  else
    ((Except.ok (lookupA key m.data).isSome), m.delete key)

/-- The loop body of List: scans the data entries, stopping once the
result holds `limit` pairs, skipping expired keys, and assigning live
pairs into the result map. -/
def listLoop (m : MemoryStore) (now : Int) (limit : Int) :
    List (String × String) → List (String × String) → List (String × String)
  | acc, [] => acc
  | acc, (k, v) :: rest =>
    if (acc.length : Int) ≥ limit then acc
    else if m.isExpired now k then listLoop m now limit acc rest
    else listLoop m now limit (insertA k v acc) rest

/-- List: returns at most `limit` live pairs and never an error; the
store state is read under a shared lock and left untouched. -/
def MemoryStore.ListOp (m : MemoryStore) (now : Int) (limit : Int) :
    Except String (List (String × String)) × MemoryStore :=
  (Except.ok (listLoop m now limit [] m.data), m)

/-- gRPC status codes used by the request handler. -/
inductive GrpcCode
  | invalidArgument
  | internal
deriving DecidableEq

/-- A gRPC status error as produced by `status.Error(code, msg)`. -/
structure GrpcError where
  code : GrpcCode
  msg : String
deriving DecidableEq

/-- The wire shape of a Set request (proto: key, value, optional
ttl_seconds). -/
structure SetRequest where
  key : String
  value : String
  ttlSeconds : Option Int
deriving DecidableEq

/-- The wire shape of a Set response. -/
structure SetResponse where
  success : Bool
deriving DecidableEq

/-- Server.Set from the handler source: rejects an empty key with
InvalidArgument; otherwise it calls the two-argument `storage.Set(key,
value)`, supplying no TTL — the request's `ttlSeconds` field is never
forwarded to the store, so the store's no-TTL branch runs. -/
def serverSet (m : MemoryStore) (now : Int) (req : SetRequest) :
    (SetResponse × Option GrpcError) × MemoryStore :=
  if req.key = "" then
    ((⟨false⟩, some ⟨GrpcCode.invalidArgument, "key cannot be empty"⟩), m)
  else
    let r := m.Set now req.key req.value none
    match r.1 with
    | Except.ok _ => ((⟨true⟩, none), r.2)
    | Except.error e =>
      ((⟨false⟩, some ⟨GrpcCode.internal, "failed to set key: " ++ e⟩), r.2)

/-- The wire shape of a List request (proto: optional int32 limit;
`GetLimit()` yields 0 when the field is absent). -/
structure ListRequest where
  limit : Option Int
deriving DecidableEq

/-- Server.List from the handler source: rejects a negative limit with
InvalidArgument before calling the store; otherwise forwards to the
store and repackages the map as a sequence of pairs. -/
def serverList (m : MemoryStore) (now : Int) (req : ListRequest) :
    (Option (List (String × String)) × Option GrpcError) × MemoryStore :=
  let limit := req.limit.getD 0
  if limit < 0 then
    ((none, some ⟨GrpcCode.invalidArgument, "limit cannot be negative"⟩), m)
  else
    let r := m.ListOp now limit
    match r.1 with
    | Except.ok pairs => ((some pairs, none), r.2)
    | Except.error e =>
      ((none, some ⟨GrpcCode.internal, "failed to list keys: " ++ e⟩), r.2)

/- Association-list lemmas shared by the claim proofs. -/

theorem lookupA_eraseA_self {α : Type} (k : String) (m : List (String × α)) :
    lookupA k (eraseA k m) = none := by
  induction m with
  | nil => rfl
  | cons p rest ih =>
    obtain ⟨k', v⟩ := p
    by_cases h : k' = k
    · simp [eraseA, h, ih]
    · simp [eraseA, h, lookupA, ih]

theorem lookupA_eraseA_ne {α : Type} {k k' : String} (h : k' ≠ k)
    (m : List (String × α)) : lookupA k' (eraseA k m) = lookupA k' m := by
  induction m with
  | nil => rfl
  | cons p rest ih =>
    obtain ⟨k0, v⟩ := p
    by_cases h0 : k0 = k
    · subst h0
      have hne : ¬k0 = k' := fun hh => h hh.symm
      simp [eraseA, lookupA, hne, ih]
    · by_cases h1 : k0 = k'
      · simp [eraseA, h0, lookupA, h1, h]
      · simp [eraseA, h0, lookupA, h1, ih]

theorem lookupA_insertA_self {α : Type} (k : String) (v : α)
    (m : List (String × α)) : lookupA k (insertA k v m) = some v := by
  simp [insertA, lookupA]

theorem lookupA_insertA_ne {α : Type} {k k' : String} (h : k' ≠ k) (v : α)
    (m : List (String × α)) : lookupA k' (insertA k v m) = lookupA k' m := by
  have hne : ¬k = k' := fun hh => h hh.symm
  simp [insertA, lookupA, hne, lookupA_eraseA_ne h]

theorem length_eraseA_le {α : Type} (k : String) (m : List (String × α)) :
    (eraseA k m).length ≤ m.length := by
  induction m with
  | nil => simp [eraseA]
  | cons p rest ih =>
    obtain ⟨k', v⟩ := p
    by_cases h : k' = k
    · simp only [eraseA, if_pos h, List.length_cons]
      omega
    · simp only [eraseA, if_neg h, List.length_cons]
      omega

theorem mem_eraseA {α : Type} {k : String} {p : String × α}
    {m : List (String × α)} (h : p ∈ eraseA k m) : p ∈ m := by
  induction m with
  | nil => simp [eraseA] at h
  | cons q rest ih =>
    obtain ⟨k', v⟩ := q
    by_cases h0 : k' = k
    · simp only [eraseA, if_pos h0] at h
      exact List.mem_cons_of_mem _ (ih h)
    · simp only [eraseA, if_neg h0, List.mem_cons] at h
      rcases h with h | h
      · exact h ▸ List.mem_cons_self _ _
      · exact List.mem_cons_of_mem _ (ih h)

theorem lookupA_of_mem_nodup {α : Type} {k : String} {v : α}
    {m : List (String × α)} (hnd : (m.map Prod.fst).Nodup) (hm : (k, v) ∈ m) :
    lookupA k m = some v := by
  induction m with
  | nil => simp at hm
  | cons p rest ih =>
    obtain ⟨k', v'⟩ := p
    simp only [List.map_cons, List.nodup_cons] at hnd
    rcases List.mem_cons.mp hm with h | h
    · obtain ⟨hk, hv⟩ := Prod.mk.injEq .. ▸ h
      simp [lookupA, hk.symm, hv]
    · by_cases h0 : k' = k
      · exact absurd (h0 ▸ List.mem_map_of_mem Prod.fst h) hnd.1
      · simp [lookupA, h0, ih hnd.2 h]

theorem mem_insertA {α : Type} {k : String} {v : α} {p : String × α}
    {m : List (String × α)} (h : p ∈ insertA k v m) : p = (k, v) ∨ p ∈ m := by
  rcases List.mem_cons.mp h with h | h
  · exact Or.inl h
  · exact Or.inr (mem_eraseA h)

theorem length_insertA_le {α : Type} (k : String) (v : α)
    (m : List (String × α)) : (insertA k v m).length ≤ m.length + 1 := by
  simp only [insertA, List.length_cons]
  exact Nat.succ_le_succ (length_eraseA_le k m)

theorem mem_listLoop {m : MemoryStore} {now limit : Int} :
    ∀ (rest acc : List (String × String)) (p : String × String),
      p ∈ listLoop m now limit acc rest →
      p ∈ acc ∨ (p ∈ rest ∧ m.isExpired now p.1 = false) := by
  intro rest
  induction rest with
  | nil =>
    intro acc p h
    exact Or.inl h
  | cons q rest ih =>
    intro acc p h
    obtain ⟨k, v⟩ := q
    by_cases h1 : (acc.length : Int) ≥ limit
    · rw [listLoop, if_pos h1] at h
      exact Or.inl h
    · by_cases h2 : m.isExpired now k = true
      · rw [listLoop, if_neg h1, if_pos h2] at h
        rcases ih acc p h with h | ⟨hm, he⟩
        · exact Or.inl h
        · exact Or.inr ⟨List.mem_cons_of_mem _ hm, he⟩
      · rw [listLoop, if_neg h1, if_neg h2] at h
        rcases ih (insertA k v acc) p h with h | ⟨hm, he⟩
        · rcases mem_insertA h with h | h
          · subst h
            exact Or.inr ⟨List.mem_cons_self _ _, by simpa using h2⟩
          · exact Or.inl h
        · exact Or.inr ⟨List.mem_cons_of_mem _ hm, he⟩

theorem listLoop_length_le {m : MemoryStore} {now limit : Int} :
    ∀ (rest acc : List (String × String)),
      (acc.length : Int) ≤ limit →
      ((listLoop m now limit acc rest).length : Int) ≤ limit := by
  intro rest
  induction rest with
  | nil =>
    intro acc hacc
    exact hacc
  | cons q rest ih =>
    intro acc hacc
    obtain ⟨k, v⟩ := q
    by_cases h1 : (acc.length : Int) ≥ limit
    · rw [listLoop, if_pos h1]
      exact hacc
    · by_cases h2 : m.isExpired now k = true
      · rw [listLoop, if_neg h1, if_pos h2]
        exact ih acc hacc
      · rw [listLoop, if_neg h1, if_neg h2]
        refine ih (insertA k v acc) ?_
        have hlen := length_insertA_le k v acc
        have h1' : (acc.length : Int) < limit := lt_of_not_ge h1
        have : ((insertA k v acc).length : Int) ≤ (acc.length : Int) + 1 := by
          exact_mod_cast hlen
        omega

theorem listLoop_nil_of_neg {m : MemoryStore} {now limit : Int}
    (h : limit < 0) (l : List (String × String)) :
    listLoop m now limit [] l = [] := by
  cases l with
  | nil => rfl
  | cons q rest =>
    obtain ⟨k, v⟩ := q
    have hc : ((List.length ([] : List (String × String)) : Int) ≥ limit) := by
      simp only [List.length_nil, Nat.cast_zero, ge_iff_le]
      omega
    rw [listLoop, if_pos hc]

/-- C1: for every key k with k ≠ "" and every value v, Set(k, v, none)
followed by Get(k), with no intervening operations and no expiration
set, returns (v, true) — at any later read time, since no expiration is
recorded. -/
theorem set_then_get (m : MemoryStore) (now now' : Int) (k v : String)
    (hk : k ≠ "") :
    ((m.Set now k v none).2.Get now' k).1 = (v, true) := by
  have h2 : (m.Set now k v none).2 = ⟨insertA k v m.data, eraseA k m.ttl⟩ := by
    simp [MemoryStore.Set, hk]
  rw [h2]
  have he : MemoryStore.isExpired ⟨insertA k v m.data, eraseA k m.ttl⟩ now' k
      = false := by
    simp [MemoryStore.isExpired, lookupA_eraseA_self]
  simp [MemoryStore.Get, he, lookupA_insertA_self]

/-- Witness for C1 at k = "k", v = "v" on the fresh store. -/
theorem set_then_get_witness :
    "k" ≠ "" ∧ ((NewMemoryStore.Set 0 "k" "v" none).2.Get 5 "k").1
      = ("v", true) :=
  ⟨by decide, set_then_get NewMemoryStore 0 5 "k" "v" (by decide)⟩

/-- C3: for every key whose expiration timestamp is at or before now
(the check being now ≥ expires_at, boundary inclusive), Get returns
("", false) and removes both the value and the expiration timestamp. -/
theorem get_expired_evicts (m : MemoryStore) (now : Int) (k : String)
    (e : Int) (h1 : lookupA k m.ttl = some e) (h2 : now ≥ e) :
    (m.Get now k).1 = ("", false) ∧
    lookupA k (m.Get now k).2.data = none ∧
    lookupA k (m.Get now k).2.ttl = none := by
  have hex : m.isExpired now k = true := by
    simp [MemoryStore.isExpired, h1, h2]
  simp [MemoryStore.Get, hex, MemoryStore.delete, lookupA_eraseA_self]

/-- Witness for C3 exactly at the expiration boundary (now = expires_at). -/
theorem get_expired_evicts_witness :
    lookupA "k" (MemoryStore.mk [("k", "v")] [("k", 100)]).ttl = some 100 ∧
    (100 : Int) ≥ 100 ∧
    ((MemoryStore.mk [("k", "v")] [("k", 100)]).Get 100 "k").1
      = ("", false) :=
  ⟨by decide, by decide,
    (get_expired_evicts (MemoryStore.mk [("k", "v")] [("k", 100)]) 100 "k"
      100 (by decide) (by decide)).1⟩

/-- C5: Set with the empty key fails with the InvalidKey error and
leaves the store state completely unchanged, for every value and every
TTL argument. -/
theorem set_empty_key_fails (m : MemoryStore) (now : Int) (v : String)
    (ttlSeconds : Option Int) :
    (m.Set now "" v ttlSeconds).1 = Except.error "key cannot be empty" ∧
    (m.Set now "" v ttlSeconds).2 = m := by
  constructor <;> simp [MemoryStore.Set]

/-- C6: for an existing key with an expiration set, a later Set with the
TTL omitted, zero, or negative replaces the value and clears the prior
expiration; a Get at any later time returns the new value. -/
theorem set_clears_ttl (m : MemoryStore) (now1 now2 : Int) (k v2 : String)
    (tOpt : Option Int) (e : Int) (hk : k ≠ "")
    (hexisting : (lookupA k m.data).isSome = true)
    (httl : lookupA k m.ttl = some e)
    (ht : tOpt = none ∨ ∃ t, tOpt = some t ∧ t ≤ 0) :
    lookupA k ((m.Set now1 k v2 tOpt).2).ttl = none ∧
    (((m.Set now1 k v2 tOpt).2).Get now2 k).1 = (v2, true) := by
  have h2 : (m.Set now1 k v2 tOpt).2
      = ⟨insertA k v2 m.data, eraseA k m.ttl⟩ := by
    rcases ht with h | ⟨t, hts, htle⟩
    · simp [MemoryStore.Set, hk, h]
    · subst hts
      simp [MemoryStore.Set, hk, not_lt.mpr htle]
  rw [h2]
  refine ⟨lookupA_eraseA_self k m.ttl, ?_⟩
  have he : MemoryStore.isExpired ⟨insertA k v2 m.data, eraseA k m.ttl⟩ now2 k
      = false := by
    simp [MemoryStore.isExpired, lookupA_eraseA_self]
  simp [MemoryStore.Get, he, lookupA_insertA_self]

/-- Witness for C6: key set with ttl = 60 at time 0, overwritten with no
TTL, then read at time 1000 (well past the original TTL). -/
theorem set_clears_ttl_witness :
    lookupA "k" ((MemoryStore.mk [("k", "v1")] [("k", 60)]).Set 0 "k" "v2"
      none).2.ttl = none ∧
    (((MemoryStore.mk [("k", "v1")] [("k", 60)]).Set 0 "k" "v2" none).2.Get
      1000 "k").1 = ("v2", true) :=
  set_clears_ttl (MemoryStore.mk [("k", "v1")] [("k", 60)]) 0 1000 "k" "v2"
    none 60 (by decide) (by decide) (by decide) (Or.inl rfl)

/-- C7: for every non-empty key, Delete succeeds, removes the entry from
both maps unconditionally, and reports whether a physical entry was
present immediately before removal; a second consecutive Delete reports
existed = false with no error. -/
theorem delete_reports_physical (m : MemoryStore) (k : String)
    (hk : k ≠ "") :
    (m.Delete k).1 = Except.ok (lookupA k m.data).isSome ∧
    lookupA k (m.Delete k).2.data = none ∧
    lookupA k (m.Delete k).2.ttl = none ∧
    ((m.Delete k).2.Delete k).1 = Except.ok false := by
  simp [MemoryStore.Delete, hk, MemoryStore.delete, lookupA_eraseA_self]

/-- Witness for C7 on a store holding an already-expired entry for the
key: existed is reported from physical presence. -/
theorem delete_reports_physical_witness :
    ((MemoryStore.mk [("k", "v")] [("k", 1)]).Delete "k").1
      = Except.ok true ∧
    (((MemoryStore.mk [("k", "v")] [("k", 1)]).Delete "k").2.Delete "k").1
      = Except.ok false :=
  ⟨by have h := (delete_reports_physical
        (MemoryStore.mk [("k", "v")] [("k", 1)]) "k" (by decide)).1
      simpa using h,
    (delete_reports_physical (MemoryStore.mk [("k", "v")] [("k", 1)]) "k"
      (by decide)).2.2.2⟩

/-- C4 counterexample: on a store holding one live entry, the store-level
List with limit = -1 returns an empty map and no error at all — it does
not fail with InvalidArgument, refuting the claim as stated about the
Store's List operation. -/
theorem list_negative_limit_no_error :
    (MemoryStore.ListOp (MemoryStore.mk [("a", "1")] []) 0 (-1)).1
      = Except.ok [] ∧
    (MemoryStore.ListOp (MemoryStore.mk [("a", "1")] []) 0 (-1)).1
      ≠ Except.error "limit cannot be negative" := by
  constructor
  · rfl
  · intro h
    simp [MemoryStore.ListOp] at h

/-- C4 amended: for every limit < 0, the request handler's List rejects
the request with InvalidArgument before calling the store, while the
store-level List itself returns an empty map with no error and leaves
the state unchanged. -/
theorem list_negative_limit_handler (m : MemoryStore) (now limit : Int)
    (h : limit < 0) :
    (serverList m now ⟨some limit⟩).1
      = (none, some ⟨GrpcCode.invalidArgument, "limit cannot be negative"⟩) ∧
    (serverList m now ⟨some limit⟩).2 = m ∧
    (m.ListOp now limit).1 = Except.ok [] ∧
    (m.ListOp now limit).2 = m := by
  refine ⟨?_, ?_, ?_, rfl⟩
  · simp [serverList, Option.getD, h]
  · simp [serverList, Option.getD, h]
  · rw [MemoryStore.ListOp, listLoop_nil_of_neg h]

/-- Witness for the amended C4 at limit = -1 on a store with one entry. -/
theorem list_negative_limit_handler_witness :
    (-1 : Int) < 0 ∧
    (serverList (MemoryStore.mk [("a", "1")] []) 0 ⟨some (-1)⟩).1
      = (none, some ⟨GrpcCode.invalidArgument, "limit cannot be negative"⟩) :=
  ⟨by decide,
    (list_negative_limit_handler (MemoryStore.mk [("a", "1")] []) 0 (-1)
      (by decide)).1⟩

/-- C8: for every limit ≥ 0 (on a well-formed store, whose data map has
no duplicate keys), List succeeds, returns at most limit pairs, every
returned pair is a non-expired key with its current value, and limit = 0
yields an empty result. -/
theorem list_limit_live (m : MemoryStore) (now limit : Int)
    (hlim : 0 ≤ limit) (hnd : (m.data.map Prod.fst).Nodup) :
    (m.ListOp now limit).1 = Except.ok (listLoop m now limit [] m.data) ∧
    ((listLoop m now limit [] m.data).length : Int) ≤ limit ∧
    (∀ k v, (k, v) ∈ listLoop m now limit [] m.data →
      m.isExpired now k = false ∧ lookupA k m.data = some v) ∧
    (limit = 0 → listLoop m now limit [] m.data = []) := by
  have hlen : ((listLoop m now limit [] m.data).length : Int) ≤ limit := by
    refine listLoop_length_le m.data [] ?_
    simpa using hlim
  refine ⟨rfl, hlen, ?_, ?_⟩
  · intro k v hmem
    rcases mem_listLoop m.data [] (k, v) hmem with h | ⟨hd, hne⟩
    · simp at h
    · exact ⟨hne, lookupA_of_mem_nodup hnd hd⟩
  · intro h0
    subst h0
    have : (listLoop m now 0 [] m.data).length = 0 := by omega
    exact List.length_eq_zero.mp this

/-- Witness for C8: two live entries, limit = 1, so exactly at most one
pair comes back. -/
theorem list_limit_live_witness :
    (0 : Int) ≤ 1 ∧
    ((listLoop (MemoryStore.mk [("a", "1"), ("b", "2")] []) 0 1 []
      [("a", "1"), ("b", "2")]).length : Int) ≤ 1 :=
  ⟨by decide,
    (list_limit_live (MemoryStore.mk [("a", "1"), ("b", "2")] []) 0 1
      (by decide) (by decide)).2.1⟩

/-- C9: List never mutates the store — the state after List equals the
state before — so an expired entry that List filters from its output
remains physically resident (its value and timestamp still present), and
it never appears in the output. -/
theorem list_no_mutation (m : MemoryStore) (now limit : Int) :
    (m.ListOp now limit).2 = m ∧
    (∀ k e v, lookupA k m.ttl = some e → now ≥ e →
      lookupA k ((m.ListOp now limit).2).ttl = some e ∧
      (k, v) ∉ listLoop m now limit [] m.data) := by
  refine ⟨rfl, ?_⟩
  intro k e v h1 h2
  refine ⟨h1, ?_⟩
  intro hmem
  rcases mem_listLoop m.data [] (k, v) hmem with h | ⟨_, hne⟩
  · simp at h
  · rw [MemoryStore.isExpired, h1] at hne
    simp only [ge_iff_le] at h2
    simp [h2] at hne

/-- Witness for C9: a store with one expired entry, scanned with
limit = 10; the state is unchanged and the entry stays resident. -/
theorem list_no_mutation_witness :
    ((MemoryStore.mk [("k", "v")] [("k", 3)]).ListOp 5 10).2
      = MemoryStore.mk [("k", "v")] [("k", 3)] ∧
    lookupA "k" (((MemoryStore.mk [("k", "v")] [("k", 3)]).ListOp 5 10).2).ttl
      = some 3 :=
  ⟨(list_no_mutation (MemoryStore.mk [("k", "v")] [("k", 3)]) 5 10).1,
    ((list_no_mutation (MemoryStore.mk [("k", "v")] [("k", 3)]) 5 10).2
      "k" 3 "v" (by decide) (by decide)).1⟩

/-- The implicit store invariant: every key holding an expiration
timestamp also holds a value (dom ttl ⊆ dom data). -/
def Inv (m : MemoryStore) : Prop :=
  ∀ k, (lookupA k m.ttl).isSome = true → (lookupA k m.data).isSome = true

theorem Inv_delete {m : MemoryStore} (k : String) (hm : Inv m) :
    Inv (m.delete k) := by
  intro k' h
  by_cases hkk : k' = k
  · subst hkk
    rw [MemoryStore.delete] at h
    simp [lookupA_eraseA_self] at h
  · rw [MemoryStore.delete] at h ⊢
    simp only [lookupA_eraseA_ne hkk] at h ⊢
    exact hm k' h

/-- C10: the ttl-domain invariant holds for the fresh store and is
preserved by Get, Set, and Delete, so no orphaned expiration timestamp
can make a freshly re-set key inherit a stale TTL. -/
theorem ttl_domain_invariant :
    Inv NewMemoryStore ∧
    (∀ (m : MemoryStore) (now : Int) (k : String),
      Inv m → Inv (m.Get now k).2) ∧
    (∀ (m : MemoryStore) (now : Int) (k v : String) (t : Option Int),
      Inv m → Inv (m.Set now k v t).2) ∧
    (∀ (m : MemoryStore) (k : String), Inv m → Inv (m.Delete k).2) := by
  refine ⟨?_, ?_, ?_, ?_⟩
  · intro k h
    simp [NewMemoryStore, lookupA] at h
  · intro m now k hm
    rw [MemoryStore.Get]
    by_cases hex : m.isExpired now k
    · simp only [hex, if_true]
      exact Inv_delete k hm
    · simp only [hex]
      cases hdk : lookupA k m.data with
      | some v => simpa [hdk] using hm
      | none => simpa [hdk] using hm
  · intro m now k v t hm
    rw [MemoryStore.Set]
    by_cases hk : k = ""
    · simpa [hk] using hm
    · cases t with
      | none =>
        simp only [hk, if_false]
        intro k' h
        by_cases hkk : k' = k
        · subst hkk
          simp [lookupA_insertA_self]
        · simp only [lookupA_eraseA_ne hkk] at h
          simp only [lookupA_insertA_ne hkk]
          exact hm k' h
      | some tv =>
        by_cases htv : tv > 0
        · simp only [hk, if_false, htv, if_true]
          intro k' h
          by_cases hkk : k' = k
          · subst hkk
            simp [lookupA_insertA_self]
          · simp only [lookupA_insertA_ne hkk] at h
            simp only [lookupA_insertA_ne hkk]
            exact hm k' h
        · simp only [hk, if_false, htv]
          intro k' h
          by_cases hkk : k' = k
          · subst hkk
            simp [lookupA_insertA_self]
          · simp only [lookupA_eraseA_ne hkk] at h
            simp only [lookupA_insertA_ne hkk]
            exact hm k' h
  · intro m k hm
    rw [MemoryStore.Delete]
    by_cases hk : k = ""
    · simpa [hk] using hm
    · simp only [hk, if_false]
      exact Inv_delete k hm

/-- Witness for C10: the invariant after a concrete Set with a positive
TTL on the fresh store, discharging the Inv hypothesis explicitly. -/
theorem ttl_domain_invariant_witness :
    Inv ((NewMemoryStore.Set 0 "a" "1" (some 5)).2) :=
  ttl_domain_invariant.2.2.1 NewMemoryStore 0 "a" "1" (some 5)
    (by intro k h; simp [NewMemoryStore, lookupA] at h)

/-- C2 evaluation at the failing input: the handler reports success for
a Set request carrying ttl_seconds = 60 at time 0, yet no expiration is
recorded in the store, and a Get 61 seconds later — past the requested
TTL — still returns the value as found, where the claim requires
not-found. -/
theorem server_set_drops_ttl :
    (serverSet NewMemoryStore 0 ⟨"k", "v", some 60⟩).1 = (⟨true⟩, none) ∧
    lookupA "k" ((serverSet NewMemoryStore 0 ⟨"k", "v", some 60⟩).2).ttl
      = none ∧
    ((serverSet NewMemoryStore 0 ⟨"k", "v", some 60⟩).2.Get 61 "k").1
      = ("v", true) := by
  refine ⟨rfl, rfl, rfl⟩

end KVStore
